import Mathlib

/-!
Shallow embedding of `src/action_update_release.py` (the `Updater` class of the
`action-update-release` tool) and proofs about it.

The program is a linear CLI-to-REST synchronizer: fetch a release by tag, resolve
the `--files` arguments into a name-to-path mapping, and for each resolved file
either delete-then-upload (when an asset of the same name exists) or upload
directly.  Network responses, the file system, and `exit(1)` / raised exceptions
are made explicit: each operation is a pure function of the response status it
receives, and a whole run returns the list of issued HTTP calls, the printed
messages, and how the process ends.
-/

set_option maxHeartbeats 1000000

namespace ActionUpdateRelease

/-- An asset attached to a release, as read by `Updater.__call__` from each
element of the release JSON's `assets` list: the `id` and `name` fields. -/
structure Asset where
  id : Nat
  name : String
deriving DecidableEq

/-- The JSON body returned by the fetch-release endpoint, restricted to what the
code reads: `release.get("assets", [])`, `release.get("upload_url", "")`, and the
truthiness test `if release := self.check_if_release_exists()`.  `isEmpty` is
true when the dict is empty, i.e. falsy in Python. -/
structure ReleaseJson where
  assets : List Asset
  upload_url : String
  isEmpty : Bool
deriving DecidableEq

/-- A file-system tree: the directory structure observed by the `pathlib.Path`
queries the code makes (`is_file`, `is_dir`, `iterdir`, `exists`). -/
inductive FSTree where
  | file
  | dir (children : List (String × FSTree))

/-- Split a list of characters at every slash (code 47), keeping components in
order.  This models how `pathlib` decomposes a path string. -/
def splitSlash : List Char → List Char → List String
  | [], acc => [String.mk acc.reverse]
  | c :: cs, acc =>
    if c = Char.ofNat 47 then String.mk acc.reverse :: splitSlash cs []
    else splitSlash cs (c :: acc)

/-- The nonempty components of a path string. -/
def pathComponents (s : String) : List String :=
  (splitSlash s.data []).filter (fun c => c ≠ "")

/-- The base name of a path (`pathlib.Path(s).name`): its last component, or the
empty string for a root / empty path. -/
def baseName (s : String) : String :=
  (pathComponents s).getLastD ""

/-- Walk a component list down a tree. -/
def FSTree.lookup : List String → FSTree → Option FSTree
  | [], t => some t
  | _ :: _, .file => none
  | c :: rest, .dir cs =>
    match cs.find? (fun p => decide (p.1 = c)) with
    | some p => FSTree.lookup rest p.2
    | none => none

/-- `Path(p).is_file()` over the tree model. -/
def isFileP (t : FSTree) (p : String) : Bool :=
  match FSTree.lookup (pathComponents p) t with
  | some .file => true
  | _ => false

/-- `Path(p).is_dir()` over the tree model. -/
def isDirP (t : FSTree) (p : String) : Bool :=
  match FSTree.lookup (pathComponents p) t with
  | some (.dir _) => true
  | _ => false

/-- `Path(p).iterdir()` over the tree model: the direct children of `p`, as full
paths, in listed order; empty when `p` is not a directory. -/
def iterdir (t : FSTree) (p : String) : List String :=
  match FSTree.lookup (pathComponents p) t with
  | some (.dir cs) => cs.map (fun c => p ++ "/" ++ c.1)
  | _ => []

/-- Insertion into a Python dict (`loaded_files[name] = path`): an existing key
keeps its position and gets the new value; a new key is appended at the end
(insertion order). -/
def dictInsert (d : List (String × String)) (k v : String) : List (String × String) :=
  if d.any (fun p => decide (p.1 = k)) then
    d.map (fun p => if p.1 = k then (k, v) else p)
  else d ++ [(k, v)]

/-- Python dict lookup over the association-list model. -/
def dictGet (d : List (String × String)) (k : String) : Option String :=
  (d.find? (fun p => decide (p.1 = k))).map (fun p => p.2)

/-- The dict effect of one iteration of the loop in `Updater.get_provided_files`:
a file inserts its base name, a directory inserts each of its direct file
children, anything else leaves the dict unchanged. -/
def resolveDict (t : FSTree) (d : List (String × String)) (p : String) :
    List (String × String) :=
  if isFileP t p then dictInsert d (baseName p) p
  else if isDirP t p then
    (iterdir t p).foldl
      (fun acc f => if isFileP t f then dictInsert acc (baseName f) f else acc) d
  else d

/-- The message printed by one iteration of the loop in
`Updater.get_provided_files`: only a missing path produces output. -/
def resolveMsg (t : FSTree) (p : String) : List String :=
  if isFileP t p then []
  else if isDirP t p then []
  else ["Path does not exist: " ++ p]

/-- One iteration of the loop in `Updater.get_provided_files`, combining the
dict effect and the printed message. -/
def resolveOne (t : FSTree) (acc : List (String × String) × List String)
    (p : String) : List (String × String) × List String :=
  (resolveDict t acc.1 p, acc.2 ++ resolveMsg t p)

/-- `Updater.get_provided_files`: fold the loop body over the `--files`
arguments, returning the name-to-path dict and the printed messages. -/
def getProvidedFiles (t : FSTree) (files : List String) :
    List (String × String) × List String :=
  files.foldl (resolveOne t) ([], [])

/-- The name-to-value contributions one input path makes to the dict, in the
order the loop inserts them.  Derived from `resolveDict` for stating
last-write-wins. -/
def contributions (t : FSTree) (p : String) : List (String × String) :=
  if isFileP t p then [(baseName p, p)]
  else if isDirP t p then
    (iterdir t p).filterMap
      (fun f => if isFileP t f then some (baseName f, f) else none)
  else []

/-- Modelled from the spec: last-write-wins lookup.  The value the spec says the
resolved mapping binds to `k` is the value of the last contribution whose key is
`k`, or nothing when no contribution has key `k`. -/
def lastBinding : List (String × String) → String → Option String
  | [], _ => none
  | kv :: rest, k =>
    match lastBinding rest k with
    | some v => some v
    | none => if kv.1 = k then some kv.2 else none

/-- How one of the three HTTP operations ends, as decoded by the `match` on the
response status in the source: return normally, print unauthorized and
`exit(1)`, fall through `raise_for_status` to a bare `exit(1)`, raise
`HTTPError` from `raise_for_status`, or raise `FileNotFoundError` before any
request (upload only). -/
inductive OpResult where
  | ok
  | unauthorized
  | otherExit
  | raised (status : Nat)
  | fnf (path : String)
deriving DecidableEq

/-- `requests.Response.raise_for_status` raises exactly for statuses in
400..599 (client and server errors); on any other status it returns normally. -/
def raisesForStatus (status : Nat) : Bool :=
  decide (400 ≤ status) && decide (status < 600)

/-- Status handling after the POST in `Updater.upload_asset`: `case 200` returns,
`case 401` prints and exits, `case _` calls `raise_for_status` and, when that
does not raise, falls through to `exit(1)`. -/
def uploadStatusResult (status : Nat) : OpResult :=
  if status = 200 then .ok
  else if status = 401 then .unauthorized
  else if raisesForStatus status then .raised status
  else .otherExit

/-- Status handling after the DELETE in `Updater.delete_asset`: `case 204`
returns, `case 401` prints and exits, `case _` calls `raise_for_status` and,
when that does not raise, falls through to `exit(1)`. -/
def deleteStatusResult (status : Nat) : OpResult :=
  if status = 204 then .ok
  else if status = 401 then .unauthorized
  else if raisesForStatus status then .raised status
  else .otherExit

/-- The body of the POST issued by `Updater.upload_asset`: `files={"file": f}`
is a multipart file-upload of the contents of `path` under form field `file`,
as opposed to the raw bytes of the file alone. -/
inductive UploadBody where
  | raw (path : String)
  | multipartFile (field : String) (path : String)
deriving DecidableEq

/-- The POST request built by `Updater.upload_asset`. -/
structure UploadRequest where
  url : String
  body : UploadBody
deriving DecidableEq

/-- The request `Updater.upload_asset` issues: URL `upload_url ++ "?name=" ++
path.name` and a multipart file-upload body. -/
def uploadRequest (uploadUrl : String) (path : String) : UploadRequest :=
  ⟨uploadUrl ++ "?name=" ++ baseName path, .multipartFile "file" path⟩

/-- `Updater.upload_asset`: `path.exists()` is checked before any network call
(raising `FileNotFoundError` when it fails); otherwise the POST is issued and
its status decoded.  Returns the request that was issued, if any, and the
outcome. -/
def uploadAsset (pathExists : Bool) (uploadUrl path : String) (status : Nat) :
    Option UploadRequest × OpResult :=
  if pathExists then (some (uploadRequest uploadUrl path), uploadStatusResult status)
  else (none, .fnf path)

/-- How `Updater.check_if_release_exists` ends: return the body, `exit(1)`, or
raise from `raise_for_status`. -/
inductive FetchResult where
  | ok (r : ReleaseJson)
  | exit1
  | raised (status : Nat)
deriving DecidableEq

/-- `Updater.check_if_release_exists`: `case 404` and `case 401` print and fall
through to `exit(1)`, `case 200` returns the JSON body, `case _` calls
`raise_for_status` and, when that does not raise, falls through to `exit(1)`.
The surrounding quotes the source prints around the tag are omitted from the
modelled message text. -/
def checkIfReleaseExists (status : Nat) (body : ReleaseJson) (tag : String) :
    List String × FetchResult :=
  if status = 404 then (["Release with tag " ++ tag ++ " does not exist."], .exit1)
  else if status = 401 then (["Unauthorized: Invalid authentication token."], .exit1)
  else if status = 200 then ([], .ok body)
  else if raisesForStatus status then ([], .raised status)
  else ([], .exit1)

/-- The prefix of a character list up to (excluding) the first opening brace
(code 123): this is `"...".split("\x7b")[0]` as used on `upload_url`. -/
def truncAtBrace : List Char → List Char
  | [] => []
  | c :: cs => if c = Char.ofNat 123 then [] else c :: truncAtBrace cs

/-- The remainder of a character list from the first opening brace on. -/
def dropFromBrace : List Char → List Char
  | [] => []
  | c :: cs => if c = Char.ofNat 123 then c :: cs else dropFromBrace cs

/-- `release.get("upload_url", "").split("\x7b")[0]`: the upload-URL template
truncated at its first opening brace. -/
def resolvedUploadUrl (template : String) : String :=
  String.mk (truncAtBrace template.data)

/-- An HTTP call issued by the per-file loop of `Updater.__call__`. -/
inductive Call where
  | delete (id : Nat)
  | upload (name : String) (path : String)
deriving DecidableEq

/-- How a whole run of `Updater.__call__` ends. -/
inductive RunOutcome where
  | success
  | exitCode (n : Nat)
  | raised (status : Nat)
  | fileNotFound (path : String)
deriving DecidableEq

/-- The observable behavior of a run: issued calls, printed messages, ending. -/
structure RunResult where
  calls : List Call
  msgs : List String
  outcome : RunOutcome
deriving DecidableEq

/-- The message an operation prints, per its `OpResult`. -/
def opMsgs : OpResult → List String
  | .unauthorized => ["Unauthorized: Invalid authentication token."]
  | _ => []

/-- The run ending an operation's non-`ok` result produces. -/
def opOutcome : OpResult → RunOutcome
  | .ok => .success
  | .unauthorized => .exitCode 1
  | .otherExit => .exitCode 1
  | .raised s => .raised s
  | .fnf p => .fileNotFound p

/-- The environment of one run: command-line inputs, the file system, and the
responses the remote API gives to each request. -/
structure Env where
  tag : String
  inputFiles : List String
  fs : FSTree
  fetchStatus : Nat
  fetchBody : ReleaseJson
  fileExists : String → Bool
  uploadStatus : String → Nat
  deleteStatus : Nat → Nat

/-- The calls the upload step contributes to the trace: one POST when the file
existed (the request was issued), none when `FileNotFoundError` preempted it. -/
def uploadCalls : Option UploadRequest → String → String → List Call
  | some _, name, path => [.upload name path]
  | none, _, _ => []

/-- The per-file loop of `Updater.__call__`, with the `toggle` flag exactly as
in the source: initialized once by the caller, set to `False` when a file
matches an existing asset, and never reset.  A file matching an asset deletes
the first match then uploads; a non-matching file uploads only when `toggle` is
still true.  A non-`ok` operation result ends the run at that point. -/
def processFiles (env : Env) (uploadUrl : String) (assets : List Asset) :
    Bool → List (String × String) → RunResult
  | _, [] => ⟨[], [], .success⟩
  | toggle, (name, path) :: rest =>
    match assets.find? (fun a => decide (a.name = name)) with
    | some a =>
      match deleteStatusResult (env.deleteStatus a.id) with
      | .ok =>
        match uploadAsset (env.fileExists path) uploadUrl path (env.uploadStatus path) with
        | (req, .ok) =>
          let r := processFiles env uploadUrl assets false rest
          ⟨.delete a.id :: (uploadCalls req name path ++ r.calls), r.msgs, r.outcome⟩
        | (req, ur) =>
          ⟨.delete a.id :: uploadCalls req name path, opMsgs ur, opOutcome ur⟩
      | dr => ⟨[.delete a.id], opMsgs dr, opOutcome dr⟩
    | none =>
      if toggle then
        match uploadAsset (env.fileExists path) uploadUrl path (env.uploadStatus path) with
        | (req, .ok) =>
          let r := processFiles env uploadUrl assets toggle rest
          ⟨uploadCalls req name path ++ r.calls, r.msgs, r.outcome⟩
        | (req, ur) => ⟨uploadCalls req name path, opMsgs ur, opOutcome ur⟩
      else processFiles env uploadUrl assets toggle rest

/-- `Updater.__call__`: fetch the release (exiting or raising as the status
dictates, and exiting when the 200 body is falsy), read `assets` and the
truncated `upload_url`, resolve the provided files, then run the per-file loop
with `toggle = True`. -/
def updaterCall (env : Env) : RunResult :=
  match checkIfReleaseExists env.fetchStatus env.fetchBody env.tag with
  | (ms, .exit1) => ⟨[], ms, .exitCode 1⟩
  | (ms, .raised s) => ⟨[], ms, .raised s⟩
  | (ms, .ok r) =>
    if r.isEmpty then
      ⟨[], ms ++ ["Release with tag " ++ env.tag ++ " could not be parsed."], .exitCode 1⟩
    else
      let uploadUrl := resolvedUploadUrl r.upload_url
      let resolved := getProvidedFiles env.fs env.inputFiles
      let res := processFiles env uploadUrl r.assets true resolved.1
      ⟨res.calls, ms ++ resolved.2 ++ res.msgs, res.outcome⟩

/-- The file system of the concrete scenario from the spec: two plain files
`a.zip` and `b.zip` at the root. -/
def fsAB : FSTree :=
  .dir [("a.zip", .file), ("b.zip", .file)]

/-- The concrete scenario from the spec: the release has one asset
`{id: 1, name: "a.zip"}`, the inputs resolve to `a.zip` then `b.zip` in that
insertion order, and every request succeeds. -/
def envScenario : Env where
  tag := "v1"
  inputFiles := ["a.zip", "b.zip"]
  fs := fsAB
  fetchStatus := 200
  fetchBody := ⟨[⟨1, "a.zip"⟩], "https://u.example/assets\x7b?name,label\x7d", false⟩
  fileExists := fun _ => true
  uploadStatus := fun _ => 200
  deleteStatus := fun _ => 204

/-- A run whose release fetch succeeds but whose single input path resolves to
nothing. -/
def envNoFiles : Env where
  tag := "v1"
  inputFiles := ["missing"]
  fs := .dir []
  fetchStatus := 200
  fetchBody := ⟨[], "https://u.example/assets", false⟩
  fileExists := fun _ => true
  uploadStatus := fun _ => 200
  deleteStatus := fun _ => 204

/-- A run whose release fetch returns 404. -/
def envNotFound : Env where
  tag := "v1"
  inputFiles := ["a.zip"]
  fs := fsAB
  fetchStatus := 404
  fetchBody := ⟨[], "", true⟩
  fileExists := fun _ => true
  uploadStatus := fun _ => 200
  deleteStatus := fun _ => 204

/-- A directory `d` holding a plain file `x.zip` and a subdirectory `sub` that
holds a deeper file `deep.zip`. -/
def fsNested : FSTree :=
  .dir [("d", .dir [("x.zip", .file), ("sub", .dir [("deep.zip", .file)])])]

theorem dictGet_nil (k : String) : dictGet [] k = none := rfl

theorem dictGet_dictInsert_self (d : List (String × String)) (k v : String) :
    dictGet (dictInsert d k v) k = some v := by
  induction d with
  | nil => simp [dictInsert, dictGet]
  | cons p ps ih =>
    by_cases hp : p.1 = k
    · simp [dictInsert, dictGet, hp]
    · by_cases ha : ps.any (fun q => decide (q.1 = k))
      · simp only [dictInsert, ha, if_true] at ih
        simp [dictInsert, dictGet, hp, ha] at ih ⊢
        exact ih
      · simp only [dictInsert, ha, if_false] at ih
        simp [dictInsert, dictGet, hp, ha] at ih ⊢
        exact ih

theorem find?_map_replace_ne (d : List (String × String)) (k v k' : String)
    (h : k' ≠ k) :
    (d.map (fun p => if p.1 = k then (k, v) else p)).find? (fun p => decide (p.1 = k')) =
      d.find? (fun p => decide (p.1 = k')) := by
  induction d with
  | nil => rfl
  | cons p ps ih =>
    simp only [List.map_cons]
    by_cases hp : p.1 = k
    · have e1 : decide (((k, v) : String × String).1 = k') = false := by
        simp only [decide_eq_false_iff_not]
        exact fun hh => h hh.symm
      have e2 : decide (p.1 = k') = false := by
        simp only [decide_eq_false_iff_not]
        exact fun hh => h (hh.symm.trans hp)
      rw [if_pos hp]
      simp only [List.find?, e1, e2]
      exact ih
    · rw [if_neg hp]
      by_cases hp' : p.1 = k'
      · have e : decide (p.1 = k') = true := by simp [hp']
        simp only [List.find?, e]
      · have e : decide (p.1 = k') = false := by simp [hp']
        simp only [List.find?, e]
        exact ih

theorem dictGet_dictInsert_ne (d : List (String × String)) (k v k' : String)
    (h : k' ≠ k) : dictGet (dictInsert d k v) k' = dictGet d k' := by
  unfold dictInsert dictGet
  by_cases ha : (d.any fun q => decide (q.1 = k)) = true
  · rw [if_pos ha, find?_map_replace_ne d k v k' h]
  · rw [if_neg ha, List.find?_append]
    have h1 : ¬((k : String) = k') := fun hh => h hh.symm
    have hnone : List.find? (fun p => decide (p.1 = k')) [(k, v)] = none := by
      simp [List.find?, h1]
    rw [hnone]
    cases hfd : d.find? (fun p => decide (p.1 = k')) <;> simp [hfd]

theorem mem_dictInsert (d : List (String × String)) (k v : String)
    (kv : String × String) (h : kv ∈ dictInsert d k v) :
    kv ∈ d ∨ kv = (k, v) := by
  unfold dictInsert at h
  by_cases ha : (d.any fun q => decide (q.1 = k)) = true
  · rw [if_pos ha] at h
    simp only [List.mem_map] at h
    obtain ⟨p, hp, hfp⟩ := h
    by_cases hk : p.1 = k
    · right; rw [← hfp]; simp [hk]
    · left; rw [← hfp]; simpa [hk] using hp
  · rw [if_neg ha] at h
    simp only [List.mem_append, List.mem_singleton] at h
    exact h

theorem dictGet_foldl_insert (l : List (String × String)) :
    ∀ (d : List (String × String)) (k : String),
    dictGet (l.foldl (fun acc kv => dictInsert acc kv.1 kv.2) d) k =
      match lastBinding l k with
      | some v => some v
      | none => dictGet d k := by
  induction l with
  | nil => intro d k; rfl
  | cons kv rest ih =>
    intro d k
    rw [List.foldl_cons, ih]
    cases hr : lastBinding rest k with
    | some v => simp [lastBinding, hr]
    | none =>
      by_cases hk : kv.1 = k
      · subst hk
        simp [lastBinding, hr, dictGet_dictInsert_self]
      · have hne : k ≠ kv.1 := fun hh => hk hh.symm
        simp [lastBinding, hr, hk, dictGet_dictInsert_ne _ _ _ _ hne]

theorem foldl_resolveOne_fst (t : FSTree) (ps : List String) :
    ∀ (d : List (String × String)) (m : List String),
    (ps.foldl (resolveOne t) (d, m)).1 = ps.foldl (resolveDict t) d := by
  induction ps with
  | nil => intro d m; rfl
  | cons p rest ih => intro d m; rw [List.foldl_cons, List.foldl_cons]; exact ih _ _

theorem foldl_resolveOne_snd (t : FSTree) (ps : List String) :
    ∀ (d : List (String × String)) (m : List String),
    (ps.foldl (resolveOne t) (d, m)).2 = m ++ (ps.map (resolveMsg t)).flatten := by
  induction ps with
  | nil => intro d m; simp
  | cons p rest ih =>
    intro d m
    rw [List.foldl_cons]
    show (rest.foldl (resolveOne t) (resolveDict t d p, m ++ resolveMsg t p)).2 = _
    rw [ih]
    simp [List.append_assoc]

theorem foldl_cond_insert_eq_filterMap (t : FSTree) (l : List String) :
    ∀ (d : List (String × String)),
    l.foldl (fun acc f => if isFileP t f then dictInsert acc (baseName f) f else acc) d =
      (l.filterMap (fun f => if isFileP t f then some (baseName f, f) else none)).foldl
        (fun acc kv => dictInsert acc kv.1 kv.2) d := by
  induction l with
  | nil => intro d; rfl
  | cons f fs ih =>
    intro d
    by_cases hf : isFileP t f <;> simp [hf, List.filterMap_cons, ih]

theorem resolveDict_eq_foldl_contributions (t : FSTree) (p : String)
    (d : List (String × String)) :
    resolveDict t d p =
      (contributions t p).foldl (fun acc kv => dictInsert acc kv.1 kv.2) d := by
  unfold resolveDict contributions
  by_cases hf : isFileP t p
  · simp [hf]
  · by_cases hd : isDirP t p
    · simp only [hf, hd, if_false, if_true, Bool.false_eq_true]
      exact foldl_cond_insert_eq_filterMap t _ d
    · simp [hf, hd]

theorem foldl_resolveDict_eq_flatten (t : FSTree) (ps : List String) :
    ∀ (d : List (String × String)),
    ps.foldl (resolveDict t) d =
      ((ps.map (contributions t)).flatten).foldl
        (fun acc kv => dictInsert acc kv.1 kv.2) d := by
  induction ps with
  | nil => intro d; rfl
  | cons p rest ih =>
    intro d
    rw [List.foldl_cons, ih, List.map_cons, List.flatten_cons, List.foldl_append,
      resolveDict_eq_foldl_contributions]

theorem getProvidedFiles_fst_eq (t : FSTree) (ps : List String) :
    (getProvidedFiles t ps).1 =
      ((ps.map (contributions t)).flatten).foldl
        (fun acc kv => dictInsert acc kv.1 kv.2) [] := by
  unfold getProvidedFiles
  rw [foldl_resolveOne_fst, foldl_resolveDict_eq_flatten]

theorem getProvidedFiles_snd_eq (t : FSTree) (ps : List String) :
    (getProvidedFiles t ps).2 = (ps.map (resolveMsg t)).flatten := by
  unfold getProvidedFiles
  rw [foldl_resolveOne_snd]
  rfl

theorem isFileP_eq_false_of_isDirP (t : FSTree) (p : String)
    (h : isDirP t p = true) : isFileP t p = false := by
  unfold isFileP
  split
  · next heq =>
      unfold isDirP at h
      simp [heq] at h
  · rfl

theorem lastBinding_eq_none (l : List (String × String)) (k : String)
    (h : ∀ kv ∈ l, kv.1 ≠ k) : lastBinding l k = none := by
  induction l with
  | nil => rfl
  | cons kv rest ih =>
    have hrest : lastBinding rest k = none :=
      ih fun kv' h' => h kv' (List.mem_cons_of_mem _ h')
    have hk : kv.1 ≠ k := h kv (List.mem_cons_self _ _)
    simp [lastBinding, hrest, hk]

theorem lastBinding_unique (l : List (String × String)) (k v : String)
    (hmem : (k, v) ∈ l) (huniq : ∀ kv ∈ l, kv.1 = k → kv = (k, v)) :
    lastBinding l k = some v := by
  induction l with
  | nil => exact absurd hmem (List.not_mem_nil _)
  | cons kv rest ih =>
    by_cases hr : (k, v) ∈ rest
    · have := ih hr fun kv' h' hk => huniq kv' (List.mem_cons_of_mem _ h') hk
      simp [lastBinding, this]
    · have hkv : kv = (k, v) := by
        rcases List.mem_cons.mp hmem with h1 | h1
        · exact h1.symm
        · exact absurd h1 hr
      have hnone : lastBinding rest k = none := by
        refine lastBinding_eq_none rest k fun kv' h' hk => ?_
        have := huniq kv' (List.mem_cons_of_mem _ h') hk
        rw [this] at h'
        exact hr h'
      simp [lastBinding, hnone, hkv]

theorem find?_first_asset (name : String) (pre : List Asset) :
    ∀ (a : Asset) (post : List Asset),
    (∀ b ∈ pre, b.name ≠ name) → a.name = name →
    (pre ++ a :: post).find? (fun b => decide (b.name = name)) = some a := by
  induction pre with
  | nil =>
    intro a post _ ha
    simp [List.find?, ha]
  | cons b bs ih =>
    intro a post hpre ha
    have hb : b.name ≠ name := hpre b (List.mem_cons_self _ _)
    have e : decide (b.name = name) = false := by simp [hb]
    simp only [List.cons_append, List.find?, e]
    exact ih a post (fun c hc => hpre c (List.mem_cons_of_mem _ hc)) ha

theorem mem_foldl_cond_insert (t : FSTree) (l : List String) :
    ∀ (acc : List (String × String)) (kv : String × String),
    kv ∈ l.foldl
        (fun acc f => if isFileP t f then dictInsert acc (baseName f) f else acc) acc →
    kv ∈ acc ∨ (kv.2 ∈ l ∧ isFileP t kv.2 = true) := by
  induction l with
  | nil => intro acc kv h; exact Or.inl h
  | cons f fs ih =>
    intro acc kv h
    rw [List.foldl_cons] at h
    rcases ih _ kv h with h' | ⟨h1, h2⟩
    · by_cases hf : isFileP t f = true
      · rw [if_pos hf] at h'
        rcases mem_dictInsert _ _ _ _ h' with h'' | h''
        · exact Or.inl h''
        · refine Or.inr ⟨?_, ?_⟩
          · rw [h'']; exact List.mem_cons_self _ _
          · rw [h'']; exact hf
      · rw [if_neg hf] at h'
        exact Or.inl h'
    · exact Or.inr ⟨List.mem_cons_of_mem _ h1, h2⟩

theorem trunc_append_drop (l : List Char) :
    truncAtBrace l ++ dropFromBrace l = l := by
  induction l with
  | nil => rfl
  | cons c cs ih =>
    by_cases hc : c = Char.ofNat 123
    · simp [truncAtBrace, dropFromBrace, hc]
    · simp [truncAtBrace, dropFromBrace, hc, ih]

theorem truncAtBrace_no_brace (l : List Char) :
    ∀ c ∈ truncAtBrace l, c ≠ Char.ofNat 123 := by
  induction l with
  | nil => intro c hc; exact absurd hc (List.not_mem_nil _)
  | cons x xs ih =>
    intro c hc
    by_cases hx : x = Char.ofNat 123
    · rw [truncAtBrace, if_pos hx] at hc
      exact absurd hc (List.not_mem_nil _)
    · rw [truncAtBrace, if_neg hx] at hc
      rcases List.mem_cons.mp hc with h1 | h1
      · rw [h1]; exact hx
      · exact ih c h1

/-- C1: the spec scenario, evaluated on the code.  With existing assets
`[{id: 1, name: "a.zip"}]`, resolved files `a.zip` then `b.zip` in insertion
order, and every request succeeding, the run issues `delete(1)` and
`upload("a.zip")` but never `upload("b.zip")`: the `toggle` flag is set to
`False` at the first asset match and never reset, so every later non-matching
file is silently skipped.  The claim requires `upload("b.zip")` to be issued
exactly once. -/
theorem scenario_skips_second_upload :
    (updaterCall envScenario).calls = [Call.delete 1, Call.upload "a.zip" "a.zip"] ∧
    Call.upload "b.zip" "b.zip" ∉ (updaterCall envScenario).calls ∧
    (updaterCall envScenario).outcome = RunOutcome.success := by
  decide

/-- C4: whenever the release fetch returns 404, the run reports that the
release does not exist, ends with exit code 1 (not by raising), and issues no
upload or delete calls. -/
theorem fetch404_no_calls (env : Env) (h : env.fetchStatus = 404) :
    updaterCall env =
      ⟨[], ["Release with tag " ++ env.tag ++ " does not exist."],
        RunOutcome.exitCode 1⟩ := by
  unfold updaterCall
  rw [h]
  rfl

/-- Witness for C4 at a concrete 404 run. -/
theorem fetch404_no_calls_witness :
    updaterCall envNotFound =
      ⟨[], ["Release with tag " ++ envNotFound.tag ++ " does not exist."],
        RunOutcome.exitCode 1⟩ :=
  fetch404_no_calls envNotFound rfl

/-- C10: when the fetch succeeds with a usable (non-falsy) body but no provided
path resolves to any file, the run completes normally with zero upload calls
and zero delete calls. -/
theorem fetch_ok_empty_resolution (env : Env) (h200 : env.fetchStatus = 200)
    (hne : env.fetchBody.isEmpty = false)
    (hres : (getProvidedFiles env.fs env.inputFiles).1 = []) :
    (updaterCall env).calls = [] ∧
    (updaterCall env).outcome = RunOutcome.success := by
  unfold updaterCall
  rw [h200]
  have hch : checkIfReleaseExists 200 env.fetchBody env.tag = ([], .ok env.fetchBody) := rfl
  rw [hch]
  simp only [hne, hres, Bool.false_eq_true, if_false]
  simp [hres, processFiles]

/-- Witness for C10 at a concrete run whose single input path is missing. -/
theorem fetch_ok_empty_resolution_witness :
    (updaterCall envNoFiles).calls = [] ∧
    (updaterCall envNoFiles).outcome = RunOutcome.success :=
  fetch_ok_empty_resolution envNoFiles rfl rfl (by decide)

/-- C8: an input path that is neither an existing file nor an existing
directory contributes nothing to the resolved mapping, is reported with a
"Path does not exist" message, and does not stop the remaining paths from
being processed (the mapping equals the one obtained with that entry removed
from the input list). -/
theorem missing_path_skipped (t : FSTree) (ps qs : List String) (p : String)
    (hf : isFileP t p = false) (hd : isDirP t p = false) :
    (getProvidedFiles t (ps ++ p :: qs)).1 = (getProvidedFiles t (ps ++ qs)).1 ∧
    ("Path does not exist: " ++ p) ∈ (getProvidedFiles t (ps ++ p :: qs)).2 := by
  constructor
  · rw [getProvidedFiles_fst_eq, getProvidedFiles_fst_eq]
    have hc : contributions t p = [] := by simp [contributions, hf, hd]
    simp [hc]
  · rw [getProvidedFiles_snd_eq]
    have hm : resolveMsg t p = ["Path does not exist: " ++ p] := by
      simp [resolveMsg, hf, hd]
    refine List.mem_flatten.mpr ⟨resolveMsg t p, ?_, ?_⟩
    · exact List.mem_map_of_mem _ (by simp)
    · rw [hm]; simp

/-- Witness for C8: a missing path between two real files is skipped. -/
theorem missing_path_skipped_witness :
    (getProvidedFiles fsAB (["a.zip"] ++ "nope" :: ["b.zip"])).1 =
      (getProvidedFiles fsAB (["a.zip"] ++ ["b.zip"])).1 ∧
    ("Path does not exist: " ++ "nope") ∈
      (getProvidedFiles fsAB (["a.zip"] ++ "nope" :: ["b.zip"])).2 :=
  missing_path_skipped fsAB ["a.zip"] ["b.zip"] "nope" (by decide) (by decide)

/-- C2: a resolved file whose base name equals the name of some existing asset
causes, when its two requests succeed, exactly one delete call carrying the id
of the first matching asset followed immediately by exactly one upload call for
that file, before any later file is touched; the scan stops at the first match,
so assets after it contribute nothing for this file. -/
theorem matched_file_delete_then_upload (env : Env) (uploadUrl name path : String)
    (pre post : List Asset) (a : Asset) (rest : List (String × String))
    (toggle : Bool) (hname : a.name = name) (hpre : ∀ b ∈ pre, b.name ≠ name)
    (hdel : env.deleteStatus a.id = 204)
    (hex : env.fileExists path = true) (hup : env.uploadStatus path = 200) :
    processFiles env uploadUrl (pre ++ a :: post) toggle ((name, path) :: rest) =
      ⟨Call.delete a.id :: Call.upload name path ::
          (processFiles env uploadUrl (pre ++ a :: post) false rest).calls,
        (processFiles env uploadUrl (pre ++ a :: post) false rest).msgs,
        (processFiles env uploadUrl (pre ++ a :: post) false rest).outcome⟩ := by
  have hfind := find?_first_asset name pre a post hpre hname
  simp only [processFiles, hfind, hdel, hex, hup]
  simp [deleteStatusResult, uploadAsset, uploadStatusResult, raisesForStatus,
    uploadCalls]

/-- Witness for C2: the single matching file of the spec scenario produces
exactly delete(1) then upload. -/
theorem matched_file_delete_then_upload_witness :
    processFiles envScenario "https://u.example/assets" [⟨1, "a.zip"⟩]
        true [("a.zip", "a.zip")] =
      ⟨[Call.delete 1, Call.upload "a.zip" "a.zip"], [], RunOutcome.success⟩ := by
  have h := matched_file_delete_then_upload envScenario "https://u.example/assets"
    "a.zip" "a.zip" [] [] ⟨1, "a.zip"⟩ [] true rfl (by simp) rfl rfl rfl
  simpa [processFiles] using h

/-- C3 counterexample: a redirect status 302 on upload or delete does not raise.
Both operations pass it to `raise_for_status`, which raises only for 4xx/5xx,
and then fall through to `exit(1)`: the call terminates by process exit, not by
raising the request-failure error the claim requires. -/
theorem status302_exits_instead_of_raising :
    uploadStatusResult 302 = OpResult.otherExit ∧
    deleteStatusResult 302 = OpResult.otherExit ∧
    uploadStatusResult 302 ≠ OpResult.raised 302 ∧
    (uploadAsset true "https://u.example/assets" "a.zip" 302).2 =
      OpResult.otherExit := by
  decide

/-- C3 amended: for statuses in 400..599 other than 401, both uploadAsset and
deleteAsset raise the generic request-failure error carrying the status; any
other status that is not the success code (and not 401) instead terminates the
process with exit code 1 without raising. -/
theorem error_status_raises (status : Nat)
    (h200 : status ≠ 200) (h401 : status ≠ 401) (h204 : status ≠ 204) :
    (400 ≤ status ∧ status < 600 →
      uploadStatusResult status = OpResult.raised status ∧
      deleteStatusResult status = OpResult.raised status) ∧
    (¬(400 ≤ status ∧ status < 600) →
      uploadStatusResult status = OpResult.otherExit ∧
      deleteStatusResult status = OpResult.otherExit) := by
  constructor
  · rintro ⟨hlo, hhi⟩
    have hr : raisesForStatus status = true := by
      simp [raisesForStatus, hlo, hhi]
    constructor <;>
      simp [uploadStatusResult, deleteStatusResult, h200, h401, h204, hr]
  · intro hnot
    have hr : raisesForStatus status = false := by
      rw [raisesForStatus]
      by_cases hlo : 400 ≤ status
      · have hhi : ¬(status < 600) := fun hh => hnot ⟨hlo, hh⟩
        simp [hlo, hhi]
      · simp [hlo]
    constructor <;>
      simp [uploadStatusResult, deleteStatusResult, h200, h401, h204, hr]

/-- Witness for C3 amended at status 500. -/
theorem error_status_raises_witness :
    uploadStatusResult 500 = OpResult.raised 500 ∧
    deleteStatusResult 500 = OpResult.raised 500 :=
  (error_status_raises 500 (by decide) (by decide) (by decide)).1 (by decide)

/-- C5 counterexample: at a concrete template and file, the URL part of the
claim holds but the request body is the multipart file-upload encoding with
form field `file` (the source passes `files=...` to the POST), not the raw
file bytes the claim requires. -/
theorem upload_body_not_raw :
    uploadRequest (resolvedUploadUrl "https://u.example/assets\x7b?name,label\x7d")
        "d/f.zip" =
      ⟨"https://u.example/assets?name=f.zip",
        UploadBody.multipartFile "file" "d/f.zip"⟩ ∧
    (uploadRequest (resolvedUploadUrl "https://u.example/assets\x7b?name,label\x7d")
        "d/f.zip").body ≠ UploadBody.raw "d/f.zip" := by
  decide

/-- C5 amended: the upload request URL is the template truncated at the first
opening brace (the truncation is brace-free and a prefix of the template) with
a `name` query parameter equal to the file's base name appended, and the body
is the multipart file-upload encoding of the file's contents under field
`file`, not the raw bytes alone. -/
theorem upload_request_shape (template path : String) :
    (uploadRequest (resolvedUploadUrl template) path).url =
      resolvedUploadUrl template ++ "?name=" ++ baseName path ∧
    (uploadRequest (resolvedUploadUrl template) path).body =
      UploadBody.multipartFile "file" path ∧
    (∀ c ∈ (resolvedUploadUrl template).data, c ≠ Char.ofNat 123) ∧
    template.data = (resolvedUploadUrl template).data ++ dropFromBrace template.data := by
  refine ⟨rfl, rfl, ?_, ?_⟩
  · intro c hc
    exact truncAtBrace_no_brace template.data c hc
  · exact (trunc_append_drop template.data).symm

/-- C6: last-write-wins.  For every file system, input list, and name, the
resolved mapping binds the name to exactly the value of the last contribution
carrying that name, with contributions listed in processing order
(`lastBinding` is the spec's later-entry-overwrites-earlier reading). -/
theorem resolved_mapping_last_write_wins (t : FSTree) (ps : List String)
    (k : String) :
    dictGet (getProvidedFiles t ps).1 k =
      lastBinding ((ps.map (contributions t)).flatten) k := by
  rw [getProvidedFiles_fst_eq,
    dictGet_foldl_insert ((ps.map (contributions t)).flatten) [] k]
  cases h : lastBinding ((ps.map (contributions t)).flatten) k <;>
    simp [h, dictGet]

/-- C7: resolving a single directory path contributes only its direct regular
file children: every mapping entry's location is a direct child that is a file
(so a file two or more levels deep never appears), and each direct file child
whose base name is unique among the children yields exactly its own entry. -/
theorem directory_resolution_direct_children (t : FSTree) (d : String)
    (hd : isDirP t d = true) :
    (∀ kv ∈ (getProvidedFiles t [d]).1,
      kv.2 ∈ iterdir t d ∧ isFileP t kv.2 = true) ∧
    (∀ c ∈ iterdir t d, isFileP t c = true →
      (∀ f ∈ iterdir t d, baseName f = baseName c → f = c) →
      dictGet (getProvidedFiles t [d]).1 (baseName c) = some c) := by
  have hf : isFileP t d = false := isFileP_eq_false_of_isDirP t d hd
  have hdict : (getProvidedFiles t [d]).1 =
      (iterdir t d).foldl
        (fun acc f => if isFileP t f then dictInsert acc (baseName f) f else acc)
        [] := by
    show (resolveOne t ([], []) d).1 = _
    simp [resolveOne, resolveDict, hf, hd]
  constructor
  · intro kv hkv
    rw [hdict] at hkv
    rcases mem_foldl_cond_insert t (iterdir t d) [] kv hkv with h' | h'
    · exact absurd h' (List.not_mem_nil _)
    · exact ⟨h'.1, h'.2⟩
  · intro c hc hcf huniq
    rw [hdict, foldl_cond_insert_eq_filterMap,
      dictGet_foldl_insert _ [] (baseName c)]
    have hmem : (baseName c, c) ∈ (iterdir t d).filterMap
        (fun f => if isFileP t f then some (baseName f, f) else none) := by
      refine List.mem_filterMap.mpr ⟨c, hc, ?_⟩
      rw [if_pos hcf]
    have huniq' : ∀ kv ∈ (iterdir t d).filterMap
        (fun f => if isFileP t f then some (baseName f, f) else none),
        kv.1 = baseName c → kv = (baseName c, c) := by
      intro kv hkv hk1
      obtain ⟨f, hf1, hf2⟩ := List.mem_filterMap.mp hkv
      by_cases hff : isFileP t f = true
      · rw [if_pos hff] at hf2
        have hkv' : kv = (baseName f, f) := (Option.some.inj hf2).symm
        have hbn : baseName f = baseName c := by rw [hkv'] at hk1; exact hk1
        have hfc : f = c := huniq f hf1 hbn
        rw [hkv', hfc]
      · rw [if_neg hff] at hf2
        exact absurd hf2 (by simp)
    have hlast := lastBinding_unique _ _ _ hmem huniq'
    simp [hlast]

/-- Witness for C7 on a nested tree: resolving the grandparent directory binds
`x.zip` to the direct child path. -/
theorem directory_resolution_direct_children_witness :
    dictGet (getProvidedFiles fsNested ["d"]).1 (baseName "d/x.zip") =
      some "d/x.zip" :=
  (directory_resolution_direct_children fsNested "d" (by decide)).2
    "d/x.zip" (by decide) (by decide) (by decide)

/-- C9: uploadAsset called on a missing file ends in the file-not-found
condition with no request issued; called on an existing file, it issues the
request and the precondition check raises no file-not-found condition. -/
theorem upload_missing_file_no_request (uploadUrl path : String) (status : Nat) :
    ((uploadAsset false uploadUrl path status).1 = none ∧
      (uploadAsset false uploadUrl path status).2 = OpResult.fnf path) ∧
    ((uploadAsset true uploadUrl path status).1 =
        some (uploadRequest uploadUrl path) ∧
      (uploadAsset true uploadUrl path status).2 ≠ OpResult.fnf path) := by
  refine ⟨⟨rfl, rfl⟩, rfl, ?_⟩
  show uploadStatusResult status ≠ OpResult.fnf path
  unfold uploadStatusResult
  split_ifs <;> simp

end ActionUpdateRelease
